import Mathlib

/-!
Verification of the path-guided 1-D SGD layout engine of odgi
(`src/algorithms/path_sgd.cpp`): the schedule, the term sampler, the
update kernel, the path-interval tree and the order finalizer, embedded
shallowly.  `double` arithmetic is modelled exactly over `ℚ` (all kernel
operations are field operations), except for the learning-rate schedule,
which uses `exp`/`log` and is modelled over `ℝ`.  `uint64_t` subtraction
is modelled with an explicit wrap `u64sub` at the sites where the source
could underflow.  Fallible vector reads are modelled with `Option`.
-/

/-- Wrapping subtraction of `uint64_t`: `(a - b) mod 2^64` for `a, b < 2^64`. -/
def u64sub (a b : ℕ) : ℕ := (a + (2 ^ 64 - b % 2 ^ 64)) % 2 ^ 64

/-- A `handle_t` as packed by `number_bool_packing`: the node rank
(`unpack_number`, i.e. `id - 1`) and the orientation bit (`unpack_bit`,
returned by `get_is_reverse`). -/
structure Handle where
  number : ℕ
  is_rev : Bool
deriving DecidableEq

/-- The packed integer of a handle, `as_integer`: number in the high bits,
orientation in the low bit. -/
def Handle.as_int (h : Handle) : ℕ := 2 * h.number + (if h.is_rev then 1 else 0)

/-- The read-only part of `PathHandleGraph` the engine uses: the
`for_each_handle` iteration order and `get_length`. -/
structure SgdGraph where
  handles : List Handle
  len : Handle → ℕ

/-- The read-only interface of the path index `xp::XP` used by the samplers.
Steps are the pairs `(path id, step rank)` that the source stores in the two
integers of a `step_handle_t`. -/
structure XPIndex where
  path_length : ℕ → ℕ
  step_at_position : ℕ → ℕ → ℕ × ℕ
  handle_of_step : ℕ × ℕ → Handle
  position_of_step : ℕ × ℕ → ℕ
  np_bv_size : ℕ
  np_bv : ℕ → Bool
  npi_iv : ℕ → ℕ
  nr_iv : ℕ → ℕ
  np_bv_select : ℕ → ℕ

/-- One interval of the `IITree path_nucleotide_tree`. -/
structure Iv where
  st : ℕ
  en : ℕ
  data : ℕ

/-- Modelled from the spec: the third-party `IITree::overlap` query, which
is not part of this repository.  Per the spec, queries return the intervals
of the tree intersecting the half-open query range. -/
def overlap (tree : List Iv) (s e : ℕ) : List Iv :=
  tree.filter (fun iv => decide (iv.st < e) && decide (s < iv.en))

/-- The interval tree built by both drivers: each selected path gets the
interval `[running total, running total + path length)`. -/
def buildTree (idx : XPIndex) : List ℕ → ℕ → List Iv
  | [], _ => []
  | p :: ps, total =>
      { st := total, en := total + idx.path_length p, data := p } ::
        buildTree idx ps (total + idx.path_length p)

/-- `total_path_len_in_nucleotides`: the sum of the selected path lengths. -/
def totalPathLen (idx : XPIndex) (paths : List ℕ) : ℕ :=
  (paths.map idx.path_length).sum

/-- Seeding loop shared by both drivers: walk the handles in iteration
order, store the running length into `X[unpack_number(handle)]`, then add
the node length. -/
def seedXAux (len : Handle → ℕ) : List Handle → (ℕ → ℚ) → ℕ → (ℕ → ℚ)
  | [], X, _ => X
  | h :: hs, X, acc => seedXAux len hs (Function.update X h.number (acc : ℚ)) (acc + len h)

/-- Initial layout `X` of both drivers (the vector starts zero-initialized). -/
def seedX (g : SgdGraph) : ℕ → ℚ := seedXAux g.len g.handles (fun _ => 0) 0

/-- `mu = eta * (1/term_dist)` capped at 1. -/
def kernelMu (eta term_dist : ℚ) : ℚ :=
  let mu := eta * (1 / term_dist)
  if mu > 1 then 1 else mu

/-- `dx = X[i] - X[j]`, with the `dx == 0` guard replacing it by `1e-9`. -/
def kernelDx (X : ℕ → ℚ) (i j : ℕ) : ℚ :=
  let dx := X i - X j
  if dx = 0 then 1e-9 else dx

/-- `mag = |dx|`. -/
def kernelMag (X : ℕ → ℚ) (i j : ℕ) : ℚ := |kernelDx X i j|

/-- `Delta = mu * (mag - d_ij) / 2`. -/
def kernelDelta (eta : ℚ) (X : ℕ → ℚ) (i j : ℕ) (d_ij : ℚ) : ℚ :=
  kernelMu eta d_ij * (kernelMag X i j - d_ij) / 2

/-- `r_x = (Delta / mag) * dx`, the displacement applied to the pair. -/
def kernelRx (eta : ℚ) (X : ℕ → ℚ) (i j : ℕ) (d_ij : ℚ) : ℚ :=
  kernelDelta eta X i j d_ij / kernelMag X i j * kernelDx X i j

/-- The update kernel of `path_linear_sgd` (worker loop, after the term is
established): update `Delta_max`, subtract `r_x` from `X[i]`, add it to
`X[j]`, and count the update.  Returns the new `X`, `Delta_max` and
`term_updates`. -/
def updateKernel (eta : ℚ) (X : ℕ → ℚ) (i j : ℕ) (d_ij : ℚ)
    (Delta_max : ℚ) (term_updates : ℕ) : (ℕ → ℚ) × ℚ × ℕ :=
  let Delta_abs := |kernelDelta eta X i j d_ij|
  let Dmax := if Delta_abs > Delta_max then Delta_abs else Delta_max
  let r_x := kernelRx eta X i j d_ij
  let X1 := Function.update X i (X i - r_x)
  let X2 := Function.update X1 j (X1 j + r_x)
  (X2, Dmax, term_updates + 1)

/-- `hit_num_paths = next_node_index - node_index - 1` in node-uniform
sampling, where `next_node_index` is `np_bv.size()` for the last node and
`np_bv_select(pos + 1)` otherwise. -/
def hitNumPaths (idx : XPIndex) (num_nodes pos : ℕ) : ℕ :=
  u64sub (u64sub (if pos = num_nodes then idx.np_bv_size else idx.np_bv_select (pos + 1))
      (idx.np_bv_select pos)) 1

/-- Result of the first sampling stage: the fatal interval-tree branch, a
skipped draw, or a resolved `(path, pos_in_path_a, path_len)`. -/
inductive SampleA where
  | fatal : SampleA
  | skip : SampleA
  | ok : ℕ → ℕ → ℕ → SampleA
deriving DecidableEq

/-- First stage of the worker's term sampler (`path_linear_sgd`): resolve
the drawn position `pos` to a path, an in-path position `pos_in_path_a`
and `path_len = path_length - 1`, in one of the three modes.  `pathDraw`
is the value of the `dis_path(gen)` draw used in node-uniform mode. -/
def sampleStageA (idx : XPIndex) (sample_from_paths sample_from_nodes : Bool)
    (num_nodes : ℕ) (tree : List Iv) (pos pathDraw : ℕ) : SampleA :=
  if sample_from_paths then
    match overlap tree pos (pos + 1) with
    | [] => SampleA.fatal
    | p :: _ =>
        let path := p.data
        let path_start_pos := p.st
        let path_len := u64sub (idx.path_length path) 1
        let pos_in_path_a := u64sub pos path_start_pos
        SampleA.ok path pos_in_path_a path_len
  else if sample_from_nodes then
    let node_index := idx.np_bv_select pos
    if hitNumPaths idx num_nodes pos = 0 then SampleA.skip
    else
      let path_pos_in_np_iv := node_index + pathDraw
      let path_i := idx.npi_iv path_pos_in_np_iv
      let s_h := (path_i, u64sub (idx.nr_iv path_pos_in_np_iv) 1)
      let pos_in_path_a := idx.position_of_step s_h
      let path_len := u64sub (idx.path_length path_i) 1
      SampleA.ok path_i pos_in_path_a path_len
  else
    if idx.np_bv pos then SampleA.skip
    else
      let path_i := idx.npi_iv pos
      let s_h := (path_i, u64sub (idx.nr_iv pos) 1)
      let pos_in_path_a := idx.position_of_step s_h
      let path_len := u64sub (idx.path_length path_i) 1
      SampleA.ok path_i pos_in_path_a path_len

/-- Second stage: apply the Zipf offset `zipfDraw` in the direction chosen
by the `flip(gen)` draw, with the source's modulo fallback and the two
degenerate skips (`pos_in_path_a == 0` backwards, zero room forwards).
Returns `pos_in_path_b`, or `none` for a skipped draw. -/
def sampleStageB (pos_in_path_a path_len zipfDraw : ℕ) (flipDraw : Bool) : Option ℕ :=
  if flipDraw then
    if zipfDraw > pos_in_path_a then
      if pos_in_path_a = 0 then none
      else some (pos_in_path_a - zipfDraw % pos_in_path_a)
    else some (pos_in_path_a - zipfDraw)
  else
    let room := u64sub path_len pos_in_path_a
    if zipfDraw > room then
      if room = 0 then none
      else some (pos_in_path_a + zipfDraw % room)
    else some (pos_in_path_a + zipfDraw)

/-- Third stage: resolve the two steps at `pos_in_path_a`/`pos_in_path_b`,
take their handles, re-fetch node-start positions, add the node length on
the reverse strand, and return `(i, j, term_dist)` with `i`, `j` the
unpacked handle numbers. -/
def computeTerm (graph : SgdGraph) (idx : XPIndex)
    (path pos_in_path_a pos_in_path_b : ℕ) : ℕ × ℕ × ℚ :=
  let step_a := idx.step_at_position path pos_in_path_a
  let step_b := idx.step_at_position path pos_in_path_b
  let term_i := idx.handle_of_step step_a
  let term_j := idx.handle_of_step step_b
  let pa := idx.position_of_step step_a
  let pb := idx.position_of_step step_b
  let pa2 := if term_i.is_rev then pa + graph.len term_i else pa
  let pb2 := if term_j.is_rev then pb + graph.len term_j else pb
  let term_dist : ℚ := |(pa2 : ℚ) - (pb2 : ℚ)|
  (term_i.number, term_j.number, term_dist)

/-- Result of one iteration of a sampling loop: the fatal `exit(1)` branch,
or the next state `(X, Delta_max, term_updates)` together with the term
`(i, j, d_ij)` that was processed (`none` when the draw was skipped). -/
inductive BodyResult where
  | fatal : BodyResult
  | next : (ℕ → ℚ) → ℚ → ℕ → Option (ℕ × ℕ × ℚ) → BodyResult

/-- One iteration of the concurrent worker's sampling loop in
`path_linear_sgd` (lines 244-467), with the RNG draws `pos`, `pathDraw`,
`zipfDraw`, `flipDraw` passed in explicitly. -/
def workerLoopBody (graph : SgdGraph) (idx : XPIndex)
    (sample_from_paths sample_from_nodes : Bool) (num_nodes : ℕ)
    (path_nucleotide_tree : List Iv) (eta : ℚ) (X : ℕ → ℚ)
    (Delta_max : ℚ) (term_updates : ℕ)
    (pos pathDraw zipfDraw : ℕ) (flipDraw : Bool) : BodyResult :=
  match sampleStageA idx sample_from_paths sample_from_nodes num_nodes
      path_nucleotide_tree pos pathDraw with
  | SampleA.fatal => BodyResult.fatal
  | SampleA.skip => BodyResult.next X Delta_max term_updates none
  | SampleA.ok path pos_in_path_a path_len =>
    match sampleStageB pos_in_path_a path_len zipfDraw flipDraw with
    | none => BodyResult.next X Delta_max term_updates none
    | some pos_in_path_b =>
      let t := computeTerm graph idx path pos_in_path_a pos_in_path_b
      let term_dist := t.2.2
      if term_dist = 0 then BodyResult.next X Delta_max term_updates none
      else
        let u := updateKernel eta X t.1 t.2.1 term_dist Delta_max term_updates
        BodyResult.next u.1 u.2.1 u.2.2 (some (t.1, t.2.1, term_dist))

/-- `hit_num_paths` of the deterministic driver (`deterministic_path_linear_sgd`,
lines 690-698): a separate translation of the duplicated source lines. -/
def detHitNumPaths (idx : XPIndex) (num_nodes pos : ℕ) : ℕ :=
  u64sub (u64sub (if pos = num_nodes then idx.np_bv_size else idx.np_bv_select (pos + 1))
      (idx.np_bv_select pos)) 1

/-- First sampling stage of the deterministic driver (lines 671-750),
translated separately from its own copy of the code. -/
def detSampleStageA (idx : XPIndex) (sample_from_paths sample_from_nodes : Bool)
    (num_nodes : ℕ) (tree : List Iv) (pos pathDraw : ℕ) : SampleA :=
  if sample_from_paths then
    match overlap tree pos (pos + 1) with
    | [] => SampleA.fatal
    | p :: _ =>
        let path := p.data
        let path_start_pos := p.st
        let path_len := u64sub (idx.path_length path) 1
        let pos_in_path_a := u64sub pos path_start_pos
        SampleA.ok path pos_in_path_a path_len
  else if sample_from_nodes then
    let node_index := idx.np_bv_select pos
    if detHitNumPaths idx num_nodes pos = 0 then SampleA.skip
    else
      let path_pos_in_np_iv := node_index + pathDraw
      let path_i := idx.npi_iv path_pos_in_np_iv
      let s_h := (path_i, u64sub (idx.nr_iv path_pos_in_np_iv) 1)
      let pos_in_path_a := idx.position_of_step s_h
      let path_len := u64sub (idx.path_length path_i) 1
      SampleA.ok path_i pos_in_path_a path_len
  else
    if idx.np_bv pos then SampleA.skip
    else
      let path_i := idx.npi_iv pos
      let s_h := (path_i, u64sub (idx.nr_iv pos) 1)
      let pos_in_path_a := idx.position_of_step s_h
      let path_len := u64sub (idx.path_length path_i) 1
      SampleA.ok path_i pos_in_path_a path_len

/-- Second sampling stage of the deterministic driver (lines 759-778). -/
def detSampleStageB (pos_in_path_a path_len zipfDraw : ℕ) (flipDraw : Bool) : Option ℕ :=
  if flipDraw then
    if zipfDraw > pos_in_path_a then
      if pos_in_path_a = 0 then none
      else some (pos_in_path_a - zipfDraw % pos_in_path_a)
    else some (pos_in_path_a - zipfDraw)
  else
    let room := u64sub path_len pos_in_path_a
    if zipfDraw > room then
      if room = 0 then none
      else some (pos_in_path_a + zipfDraw % room)
    else some (pos_in_path_a + zipfDraw)

/-- Third stage of the deterministic driver (lines 784-813). -/
def detComputeTerm (graph : SgdGraph) (idx : XPIndex)
    (path pos_in_path_a pos_in_path_b : ℕ) : ℕ × ℕ × ℚ :=
  let step_a := idx.step_at_position path pos_in_path_a
  let step_b := idx.step_at_position path pos_in_path_b
  let term_i := idx.handle_of_step step_a
  let term_j := idx.handle_of_step step_b
  let pa := idx.position_of_step step_a
  let pb := idx.position_of_step step_b
  let pa2 := if term_i.is_rev then pa + graph.len term_i else pa
  let pb2 := if term_j.is_rev then pb + graph.len term_j else pb
  let term_dist : ℚ := |(pa2 : ℚ) - (pb2 : ℚ)|
  (term_i.number, term_j.number, term_dist)

/-- Update kernel of the deterministic driver (lines 827-887). -/
def detUpdateKernel (eta : ℚ) (X : ℕ → ℚ) (i j : ℕ) (d_ij : ℚ)
    (Delta_max : ℚ) (term_updates : ℕ) : (ℕ → ℚ) × ℚ × ℕ :=
  let mu0 := eta * (1 / d_ij)
  let mu := if mu0 > 1 then 1 else mu0
  let dx0 := X i - X j
  let dx := if dx0 = 0 then (1e-9 : ℚ) else dx0
  let mag := |dx|
  let Delta := mu * (mag - d_ij) / 2
  let Delta_abs := |Delta|
  let Dmax := if Delta_abs > Delta_max then Delta_abs else Delta_max
  let r := Delta / mag
  let r_x := r * dx
  let X1 := Function.update X i (X i - r_x)
  let X2 := Function.update X1 j (X1 j + r_x)
  (X2, Dmax, term_updates + 1)

/-- One iteration of the deterministic driver's inner `term_update` loop in
`deterministic_path_linear_sgd` (lines 662-887), translated from its own
copy of the code. -/
def detLoopBody (graph : SgdGraph) (idx : XPIndex)
    (sample_from_paths sample_from_nodes : Bool) (num_nodes : ℕ)
    (path_nucleotide_tree : List Iv) (eta : ℚ) (X : ℕ → ℚ)
    (Delta_max : ℚ) (term_updates : ℕ)
    (pos pathDraw zipfDraw : ℕ) (flipDraw : Bool) : BodyResult :=
  match detSampleStageA idx sample_from_paths sample_from_nodes num_nodes
      path_nucleotide_tree pos pathDraw with
  | SampleA.fatal => BodyResult.fatal
  | SampleA.skip => BodyResult.next X Delta_max term_updates none
  | SampleA.ok path pos_in_path_a path_len =>
    match detSampleStageB pos_in_path_a path_len zipfDraw flipDraw with
    | none => BodyResult.next X Delta_max term_updates none
    | some pos_in_path_b =>
      let t := detComputeTerm graph idx path pos_in_path_a pos_in_path_b
      let term_dist := t.2.2
      if term_dist = 0 then BodyResult.next X Delta_max term_updates none
      else
        let u := detUpdateKernel eta X t.1 t.2.1 term_dist Delta_max term_updates
        BodyResult.next u.1 u.2.1 u.2.2 (some (t.1, t.2.1, term_dist))

lemma kernelDx_ne_zero (X : ℕ → ℚ) (i j : ℕ) : kernelDx X i j ≠ 0 := by
  simp only [kernelDx]
  split
  · norm_num
  · assumption

lemma kernelMag_pos (X : ℕ → ℚ) (i j : ℕ) : 0 < kernelMag X i j :=
  abs_pos.mpr (kernelDx_ne_zero X i j)

lemma kernelMu_nonneg (eta d_ij : ℚ) (heta : 0 ≤ eta) (hd : 0 < d_ij) :
    0 ≤ kernelMu eta d_ij := by
  simp only [kernelMu]
  split
  · norm_num
  · positivity

lemma kernelMu_le_one (eta d_ij : ℚ) : kernelMu eta d_ij ≤ 1 := by
  simp only [kernelMu]
  split
  · exact le_refl 1
  · linarith [not_lt.mp (by assumption : ¬ eta * (1 / d_ij) > 1)]

/-- C5: a single update of the update kernel at indices `i ≠ j` leaves
`X[i] + X[j]` invariant: it subtracts `r_x = (Delta/mag)*dx` from `X[i]`
and adds exactly the same `r_x` to `X[j]`. -/
theorem C5_update_conservation (eta : ℚ) (X : ℕ → ℚ) (i j : ℕ)
    (d_ij Delta_max : ℚ) (term_updates : ℕ) (hij : i ≠ j) :
    (updateKernel eta X i j d_ij Delta_max term_updates).1 i
        + (updateKernel eta X i j d_ij Delta_max term_updates).1 j = X i + X j
    ∧ (updateKernel eta X i j d_ij Delta_max term_updates).1 i
        = X i - kernelRx eta X i j d_ij
    ∧ (updateKernel eta X i j d_ij Delta_max term_updates).1 j
        = X j + kernelRx eta X i j d_ij := by
  have hi : (updateKernel eta X i j d_ij Delta_max term_updates).1 i
      = X i - kernelRx eta X i j d_ij := by
    simp [updateKernel, Function.update_noteq hij, Function.update_same]
  have hj : (updateKernel eta X i j d_ij Delta_max term_updates).1 j
      = X j + kernelRx eta X i j d_ij := by
    simp [updateKernel, Function.update_noteq (Ne.symm hij), Function.update_same]
  refine ⟨?_, hi, hj⟩
  rw [hi, hj]; ring

/-- C5 witness: the conservation theorem applied at a concrete update. -/
theorem C5_update_conservation_witness :
    (updateKernel 1 (fun n => (n : ℚ)) 0 1 1 0 0).1 0
        + (updateKernel 1 (fun n => (n : ℚ)) 0 1 1 0 0).1 1
        = (fun n => (n : ℚ)) 0 + (fun n => (n : ℚ)) 1
    ∧ (updateKernel 1 (fun n => (n : ℚ)) 0 1 1 0 0).1 0
        = (fun n => (n : ℚ)) 0 - kernelRx 1 (fun n => (n : ℚ)) 0 1 1
    ∧ (updateKernel 1 (fun n => (n : ℚ)) 0 1 1 0 0).1 1
        = (fun n => (n : ℚ)) 1 + kernelRx 1 (fun n => (n : ℚ)) 0 1 1 :=
  C5_update_conservation 1 (fun n => (n : ℚ)) 0 1 1 0 0 (by decide)

/-- C6 counterexample: with `eta = 1`, `d_ij = 1`, `X[i] = 100`, `X[j] = 0`
the kernel's displacement magnitude is `|Delta| = 99/2`, far above
`d_ij / 2 = 1/2`, so the claimed bound `|Delta| ≤ d_ij / 2` is false. -/
theorem C6_cex :
    ¬ |kernelDelta 1 (fun n => if n = 0 then 100 else 0) 0 1 1| ≤ 1 / 2 := by
  have h : kernelDelta 1 (fun n => if n = 0 then 100 else 0) 0 1 1 = 99 / 2 := by
    have hmag : kernelMag (fun n => if n = 0 then 100 else 0) 0 1 = 100 := by
      have : kernelDx (fun n => if n = 0 then 100 else 0) 0 1 = 100 := by
        norm_num [kernelDx]
      rw [kernelMag, this, abs_of_nonneg (by norm_num : (0 : ℚ) ≤ 100)]
    rw [kernelDelta, hmag]
    norm_num [kernelMu]
  rw [h, abs_of_nonneg (by norm_num : (0 : ℚ) ≤ 99 / 2)]
  norm_num

/-- C6 (amended): with `mu = min(1, eta/d_ij)` and `0 ≤ eta`, `0 < d_ij`,
the displacement magnitude `|Delta| = mu * |mag - d_ij| / 2` is at most
`|mag - d_ij| / 2`; it is at most `d_ij / 2` whenever `mag ≤ d_ij`; and the
value moved, `|r_x|`, equals `|Delta|`. -/
theorem C6_displacement_bound (eta d_ij : ℚ) (X : ℕ → ℚ) (i j : ℕ)
    (heta : 0 ≤ eta) (hd : 0 < d_ij) :
    |kernelDelta eta X i j d_ij| ≤ |kernelMag X i j - d_ij| / 2
    ∧ (kernelMag X i j ≤ d_ij → |kernelDelta eta X i j d_ij| ≤ d_ij / 2)
    ∧ |kernelRx eta X i j d_ij| = |kernelDelta eta X i j d_ij| := by
  have hmu0 := kernelMu_nonneg eta d_ij heta hd
  have hmu1 := kernelMu_le_one eta d_ij
  have hmagpos := kernelMag_pos X i j
  have habs : |kernelDelta eta X i j d_ij|
      = kernelMu eta d_ij * |kernelMag X i j - d_ij| / 2 := by
    rw [kernelDelta, abs_div, abs_mul, abs_of_nonneg hmu0]
    norm_num
  have hhalf : |kernelDelta eta X i j d_ij| ≤ |kernelMag X i j - d_ij| / 2 := by
    rw [habs]
    have := abs_nonneg (kernelMag X i j - d_ij)
    nlinarith
  refine ⟨hhalf, ?_, ?_⟩
  · intro hmag
    have h1 : |kernelMag X i j - d_ij| = d_ij - kernelMag X i j := by
      rw [abs_of_nonpos (by linarith)]; ring
    have := hmagpos
    calc |kernelDelta eta X i j d_ij| ≤ |kernelMag X i j - d_ij| / 2 := hhalf
      _ = (d_ij - kernelMag X i j) / 2 := by rw [h1]
      _ ≤ d_ij / 2 := by linarith
  · have hdx : |kernelDx X i j| = kernelMag X i j := rfl
    rw [kernelRx, abs_mul, abs_div, abs_of_nonneg (le_of_lt hmagpos), hdx,
      div_mul_cancel₀ _ (ne_of_gt hmagpos)]

/-- C6 witness: the amended bound applied at a concrete update. -/
theorem C6_displacement_bound_witness :
    |kernelDelta 1 (fun _ => (0 : ℚ)) 0 1 2| ≤ |kernelMag (fun _ => (0 : ℚ)) 0 1 - 2| / 2
    ∧ (kernelMag (fun _ => (0 : ℚ)) 0 1 ≤ 2 →
        |kernelDelta 1 (fun _ => (0 : ℚ)) 0 1 2| ≤ 2 / 2)
    ∧ |kernelRx 1 (fun _ => (0 : ℚ)) 0 1 2| = |kernelDelta 1 (fun _ => (0 : ℚ)) 0 1 2| :=
  C6_displacement_bound 1 2 (fun _ => (0 : ℚ)) 0 1 (by norm_num) (by norm_num)

/-- C9 counterexample: with `X[i] - X[j] = 1e-10 ≠ 0` the guard does not
fire and the divisor `mag = 1e-10` is smaller than `1e-9`, refuting the
claim that `mag` is always at least `1e-9`. -/
theorem C9_cex :
    ¬ (1e-9 : ℚ) ≤ kernelMag (fun n => if n = 0 then 1e-10 else 0) 0 1 := by
  have h : kernelDx (fun n => if n = 0 then 1e-10 else 0) 0 1 = 1e-10 := by
    norm_num [kernelDx]
  rw [kernelMag, h, abs_of_nonneg (by norm_num : (0 : ℚ) ≤ 1e-10)]
  norm_num

/-- C9 (amended): the `dx == 0` guard makes the divisor `mag` strictly
positive — equal to `1e-9` exactly when `X[i] = X[j]` — but `mag` can be
any positive value below `1e-9` when `0 < |dx| < 1e-9`. -/
theorem C9_divisor_positive (X : ℕ → ℚ) (i j : ℕ) :
    0 < kernelMag X i j ∧ (X i = X j → kernelMag X i j = 1e-9) := by
  refine ⟨kernelMag_pos X i j, fun h => ?_⟩
  rw [kernelMag, kernelDx]
  simp only [sub_eq_zero.mpr h, if_pos rfl]
  norm_num

/-- C9 witness: the amended divisor guarantee applied at a concrete state
where the guard fires. -/
theorem C9_divisor_positive_witness :
    0 < kernelMag (fun _ => (0 : ℚ)) 0 1 ∧ kernelMag (fun _ => (0 : ℚ)) 0 1 = 1e-9 :=
  ⟨(C9_divisor_positive (fun _ => (0 : ℚ)) 0 1).1,
    (C9_divisor_positive (fun _ => (0 : ℚ)) 0 1).2 rfl⟩

lemma detBody_eq_workerBody (graph : SgdGraph) (idx : XPIndex)
    (sample_from_paths sample_from_nodes : Bool) (num_nodes : ℕ)
    (tree : List Iv) (eta : ℚ) (X : ℕ → ℚ) (Delta_max : ℚ) (term_updates : ℕ)
    (pos pathDraw zipfDraw : ℕ) (flipDraw : Bool) :
    detLoopBody graph idx sample_from_paths sample_from_nodes num_nodes tree
        eta X Delta_max term_updates pos pathDraw zipfDraw flipDraw
      = workerLoopBody graph idx sample_from_paths sample_from_nodes num_nodes tree
        eta X Delta_max term_updates pos pathDraw zipfDraw flipDraw := rfl

/-- C2: on the same graph, path index, selected-path tree, hyperparameter
flags and identical RNG draws `(pos, pathDraw, zipfDraw, flipDraw)`, one
term-processing step of the deterministic driver — mode selection, Zipf
offset and direction handling, every skip condition, the reverse-strand
adjustment and the X-update arithmetic — produces exactly the same result
(same term `(i, j, d_ij)`, same new `X`, `Delta_max`, `term_updates`) as
one loop body of a concurrent worker. -/
theorem C2_det_matches_worker (graph : SgdGraph) (idx : XPIndex)
    (sample_from_paths sample_from_nodes : Bool) (num_nodes : ℕ)
    (tree : List Iv) (eta : ℚ) (X : ℕ → ℚ) (Delta_max : ℚ) (term_updates : ℕ)
    (pos pathDraw zipfDraw : ℕ) (flipDraw : Bool) :
    detLoopBody graph idx sample_from_paths sample_from_nodes num_nodes tree
        eta X Delta_max term_updates pos pathDraw zipfDraw flipDraw
      = workerLoopBody graph idx sample_from_paths sample_from_nodes num_nodes tree
        eta X Delta_max term_updates pos pathDraw zipfDraw flipDraw :=
  detBody_eq_workerBody graph idx sample_from_paths sample_from_nodes num_nodes
    tree eta X Delta_max term_updates pos pathDraw zipfDraw flipDraw

/-- C8: whenever the term sampler hits a skip condition — the drawn
position lands on a set bit of `np_bv`, the sampled node is visited by
zero paths, `pos_in_path_a = 0` going backwards, zero remaining room going
forwards (with a positive Zipf draw, as Zipf draws lie in `[1, space]`),
or the resulting `d_ij = 0` — no update is applied: `X`, `term_updates`
and `Delta_max` are returned unchanged and no term is produced. -/
theorem C8_skip_no_update (graph : SgdGraph) (idx : XPIndex)
    (sfp sfn : Bool) (num_nodes : ℕ) (tree : List Iv) (eta : ℚ)
    (X : ℕ → ℚ) (Delta_max : ℚ) (term_updates : ℕ)
    (pos pathDraw zipfDraw : ℕ) (flipDraw : Bool)
    (h :
      (sfp = false ∧ sfn = false ∧ idx.np_bv pos = true)
      ∨ (sfp = false ∧ sfn = true ∧ hitNumPaths idx num_nodes pos = 0)
      ∨ (∃ path pa plen,
          sampleStageA idx sfp sfn num_nodes tree pos pathDraw = SampleA.ok path pa plen
          ∧ flipDraw = true ∧ pa = 0 ∧ 0 < zipfDraw)
      ∨ (∃ path pa plen,
          sampleStageA idx sfp sfn num_nodes tree pos pathDraw = SampleA.ok path pa plen
          ∧ flipDraw = false ∧ u64sub plen pa = 0 ∧ 0 < zipfDraw)
      ∨ (∃ path pa plen pb,
          sampleStageA idx sfp sfn num_nodes tree pos pathDraw = SampleA.ok path pa plen
          ∧ sampleStageB pa plen zipfDraw flipDraw = some pb
          ∧ (computeTerm graph idx path pa pb).2.2 = 0)) :
    workerLoopBody graph idx sfp sfn num_nodes tree eta X Delta_max term_updates
        pos pathDraw zipfDraw flipDraw
      = BodyResult.next X Delta_max term_updates none := by
  rcases h with ⟨h1, h2, h3⟩ | ⟨h1, h2, h3⟩
    | ⟨path, pa, plen, hA, hf, hpa, hz⟩
    | ⟨path, pa, plen, hA, hf, hroom, hz⟩
    | ⟨path, pa, plen, pb, hA, hB, hd⟩
  · have hskip : sampleStageA idx sfp sfn num_nodes tree pos pathDraw = SampleA.skip := by
      simp [sampleStageA, h1, h2, h3]
    simp [workerLoopBody, hskip]
  · have hskip : sampleStageA idx sfp sfn num_nodes tree pos pathDraw = SampleA.skip := by
      simp [sampleStageA, h1, h2, h3]
    simp [workerLoopBody, hskip]
  · have hB : sampleStageB pa plen zipfDraw flipDraw = none := by
      simp [sampleStageB, hf, hpa, hz]
    simp [workerLoopBody, hA, hB]
  · have hB : sampleStageB pa plen zipfDraw flipDraw = none := by
      simp [sampleStageB, hf, hroom, hz]
    simp [workerLoopBody, hA, hB]
  · simp [workerLoopBody, hA, hB, hd]

/-- A path index whose `np_bv` is identically 1, used to exercise the
node-bit skip. -/
def idxAllBits : XPIndex :=
  { path_length := fun _ => 3
    step_at_position := fun _ _ => (0, 0)
    handle_of_step := fun _ => ⟨0, false⟩
    position_of_step := fun _ => 0
    np_bv_size := 0
    np_bv := fun _ => true
    npi_iv := fun _ => 0
    nr_iv := fun _ => 0
    np_bv_select := fun _ => 0 }

/-- An empty graph stub for witnesses that never touch the graph. -/
def gEmpty : SgdGraph := { handles := [], len := fun _ => 0 }

/-- C8 witness: a step-uniform draw that lands on a node-boundary bit is
skipped with the state unchanged. -/
theorem C8_skip_no_update_witness :
    workerLoopBody gEmpty idxAllBits false false 0 [] 0 (fun _ => 0) 0 5 7 0 1 true
      = BodyResult.next (fun _ => 0) 0 5 none :=
  C8_skip_no_update gEmpty idxAllBits false false 0 [] 0 (fun _ => 0) 0 5 7 0 1 true
    (Or.inl ⟨rfl, rfl, rfl⟩)

lemma buildTree_covers (idx : XPIndex) :
    ∀ (paths : List ℕ) (off pos : ℕ), off ≤ pos → pos < off + totalPathLen idx paths →
      ∃ iv ∈ buildTree idx paths off, iv.st ≤ pos ∧ pos < iv.en := by
  intro paths
  induction paths with
  | nil =>
      intro off pos hlo hhi
      simp [totalPathLen] at hhi
      omega
  | cons p ps ih =>
      intro off pos hlo hhi
      by_cases hp : pos < off + idx.path_length p
      · exact ⟨{ st := off, en := off + idx.path_length p, data := p },
          List.mem_cons_self _ _, hlo, hp⟩
      · have hlo2 : off + idx.path_length p ≤ pos := not_lt.mp hp
        have hhi2 : pos < off + idx.path_length p + totalPathLen idx ps := by
          simp [totalPathLen] at hhi ⊢
          omega
        obtain ⟨iv, hmem, hiv⟩ := ih (off + idx.path_length p) pos hlo2 hhi2
        exact ⟨iv, List.mem_cons_of_mem _ hmem, hiv⟩

lemma overlap_ne_nil (tree : List Iv) (pos : ℕ)
    (h : ∃ iv ∈ tree, iv.st ≤ pos ∧ pos < iv.en) :
    overlap tree pos (pos + 1) ≠ [] := by
  obtain ⟨iv, hmem, hst, hen⟩ := h
  have : iv ∈ overlap tree pos (pos + 1) := by
    apply List.mem_filter.mpr
    refine ⟨hmem, ?_⟩
    simp only [Bool.and_eq_true, decide_eq_true_eq]
    exact ⟨Nat.lt_succ_of_le hst, hen⟩
  exact List.ne_nil_of_mem this

lemma workerLoopBody_ne_fatal (graph : SgdGraph) (idx : XPIndex) (sfn : Bool)
    (num_nodes : ℕ) (tree : List Iv) (eta : ℚ) (X : ℕ → ℚ) (Delta_max : ℚ)
    (term_updates : ℕ) (pos pathDraw zipfDraw : ℕ) (flipDraw : Bool)
    (h : overlap tree pos (pos + 1) ≠ []) :
    workerLoopBody graph idx true sfn num_nodes tree eta X Delta_max term_updates
        pos pathDraw zipfDraw flipDraw ≠ BodyResult.fatal := by
  obtain ⟨iv, rest, hcons⟩ := List.exists_cons_of_ne_nil h
  have hA : sampleStageA idx true sfn num_nodes tree pos pathDraw
      = SampleA.ok iv.data (u64sub pos iv.st) (u64sub (idx.path_length iv.data) 1) := by
    simp [sampleStageA, hcons]
  simp only [workerLoopBody, hA]
  cases hB : sampleStageB (u64sub pos iv.st) (u64sub (idx.path_length iv.data) 1)
      zipfDraw flipDraw with
  | none => exact fun hc => BodyResult.noConfusion hc
  | some pb =>
      simp only []
      split
      · exact fun hc => BodyResult.noConfusion hc
      · exact fun hc => BodyResult.noConfusion hc

/-- C7: for every position `pos` in `[0, T)`, `T` the total nucleotide
length of the selected paths, the interval tree built by assigning each
path the half-open interval `[running total, running total + L(P))`
answers `overlap(pos, pos+1)` with at least one interval, so the fatal
"no overlapping intervals" exit branch is unreachable in both drivers when
`sample_from_paths` is true. -/
theorem C7_no_fatal (idx : XPIndex) (paths : List ℕ) (pos : ℕ)
    (hpos : pos < totalPathLen idx paths) :
    overlap (buildTree idx paths 0) pos (pos + 1) ≠ []
    ∧ ∀ (graph : SgdGraph) (sfn : Bool) (num_nodes : ℕ) (eta : ℚ) (X : ℕ → ℚ)
        (Delta_max : ℚ) (term_updates : ℕ) (pathDraw zipfDraw : ℕ) (flipDraw : Bool),
        workerLoopBody graph idx true sfn num_nodes (buildTree idx paths 0) eta X
            Delta_max term_updates pos pathDraw zipfDraw flipDraw ≠ BodyResult.fatal
        ∧ detLoopBody graph idx true sfn num_nodes (buildTree idx paths 0) eta X
            Delta_max term_updates pos pathDraw zipfDraw flipDraw ≠ BodyResult.fatal := by
  have hcover := buildTree_covers idx paths 0 pos (Nat.zero_le pos) (by simpa using hpos)
  have hne := overlap_ne_nil _ pos hcover
  refine ⟨hne, fun graph sfn num_nodes eta X Delta_max term_updates pathDraw zipfDraw flipDraw => ?_⟩
  have hw := workerLoopBody_ne_fatal graph idx sfn num_nodes (buildTree idx paths 0)
    eta X Delta_max term_updates pos pathDraw zipfDraw flipDraw hne
  refine ⟨hw, ?_⟩
  rw [detBody_eq_workerBody]
  exact hw

/-- A path index with a single path of length 3, for concrete witnesses. -/
def idxOnePath : XPIndex :=
  { path_length := fun _ => 3
    step_at_position := fun _ _ => (0, 0)
    handle_of_step := fun _ => ⟨0, false⟩
    position_of_step := fun _ => 0
    np_bv_size := 0
    np_bv := fun _ => false
    npi_iv := fun _ => 0
    nr_iv := fun _ => 0
    np_bv_select := fun _ => 0 }

/-- C7 witness: position 1 inside the single selected path of total length
3 always finds an overlapping interval, and neither driver's loop body can
reach the fatal branch there. -/
theorem C7_no_fatal_witness :
    overlap (buildTree idxOnePath [0] 0) 1 2 ≠ []
    ∧ workerLoopBody gEmpty idxOnePath true false 0 (buildTree idxOnePath [0] 0)
        0 (fun _ => 0) 0 0 1 0 0 true ≠ BodyResult.fatal
    ∧ detLoopBody gEmpty idxOnePath true false 0 (buildTree idxOnePath [0] 0)
        0 (fun _ => 0) 0 0 1 0 0 true ≠ BodyResult.fatal :=
  ⟨(C7_no_fatal idxOnePath [0] 1 (by decide)).1,
    ((C7_no_fatal idxOnePath [0] 1 (by decide)).2 gEmpty false 0 0 (fun _ => 0) 0 0 0 0 true).1,
    ((C7_no_fatal idxOnePath [0] 1 (by decide)).2 gEmpty false 0 0 (fun _ => 0) 0 0 0 0 true).2⟩

lemma seedXAux_not_mem (len : Handle → ℕ) (hs : List Handle) (X : ℕ → ℚ) (acc n : ℕ)
    (hn : n ∉ hs.map Handle.number) :
    seedXAux len hs X acc n = X n := by
  induction hs generalizing X acc with
  | nil => rfl
  | cons h t ih =>
      simp only [List.map_cons, List.mem_cons] at hn
      push_neg at hn
      rw [seedXAux, ih _ _ hn.2, Function.update_noteq hn.1]

lemma seedXAux_get (len : Handle → ℕ) (hs : List Handle) (X : ℕ → ℚ) (acc : ℕ)
    (k : ℕ) (hk : k < hs.length) (hnodup : (hs.map Handle.number).Nodup) :
    seedXAux len hs X acc ((hs.get ⟨k, hk⟩).number)
      = (acc : ℚ) + (((hs.take k).map len).sum : ℕ) := by
  induction hs generalizing X acc k with
  | nil => simp at hk
  | cons h t ih =>
      simp only [List.map_cons, List.nodup_cons] at hnodup
      cases k with
      | zero =>
          simp only [List.get, List.take, List.map_nil, List.sum_nil, Nat.cast_zero, add_zero]
          rw [seedXAux, seedXAux_not_mem _ _ _ _ _ hnodup.1, Function.update_same]
      | succ k =>
          have hk2 : k < t.length := Nat.succ_lt_succ_iff.mp hk
          rw [seedXAux]
          have := ih (Function.update X h.number (acc : ℚ)) (acc + len h) k hk2 hnodup.2
          simp only [List.get] at this ⊢
          rw [this]
          simp only [List.take_succ_cons, List.map_cons, List.sum_cons]
          push_cast
          ring

/-- C4: immediately after the initialization shared by both drivers, the
coordinate of the k-th handle in the graph's iteration order is the sum of
the lengths of all nodes that precede it in that order (so the first node
has coordinate 0 and the seeded values are monotone along the order),
provided the handle numbers are distinct (the compact-handle-set
assumption stated in the source). -/
theorem C4_initial_layout (g : SgdGraph) (k : ℕ) (hk : k < g.handles.length)
    (hnodup : (g.handles.map Handle.number).Nodup) :
    seedX g ((g.handles.get ⟨k, hk⟩).number)
      = ((((g.handles.take k).map g.len).sum : ℕ) : ℚ) := by
  rw [seedX, seedXAux_get g.len g.handles (fun _ => 0) 0 k hk hnodup]
  simp

/-- The three-node graph of the spec's first seed scenario: node lengths
10, 20, 30 in iteration order. -/
def gThree : SgdGraph :=
  { handles := [⟨0, false⟩, ⟨1, false⟩, ⟨2, false⟩]
    len := fun h => if h.number = 0 then 10 else if h.number = 1 then 20 else 30 }

/-- C4 witness: on the three-node graph the third handle is seeded with
10 + 20 = 30, the sum of the lengths preceding it. -/
theorem C4_initial_layout_witness :
    seedX gThree ((gThree.handles.get ⟨2, by decide⟩).number)
      = ((((gThree.handles.take 2).map gThree.len).sum : ℕ) : ℚ) :=
  C4_initial_layout gThree 2 (by decide) (by decide)

/-- The learning-rate schedule `path_linear_sgd_schedule` (lines 517-552):
`eta_max = 1/w_min`, `eta_min = eps/w_max`,
`lambda = log(eta_max/eta_min)/(iter_max - 1)`, and entry `t` is
`eta_max * exp(-lambda * |t - iter_with_max_learning_rate|)` with the
difference taken over `int64_t`.  Caveat: at `iter_max = 1` the source
divides by `0.0`, making `lambda` infinite (or NaN) and the single entry
`NaN`; the real-valued embedding (where `x / 0 = 0`) cannot express that,
so the theorems about this definition assume `2 ≤ iter_max`. -/
noncomputable def path_linear_sgd_schedule (w_min w_max : ℝ)
    (iter_max iter_with_max_learning_rate : ℕ) (eps : ℝ) : List ℝ :=
  let eta_max := 1 / w_min
  let eta_min := eps / w_max
  let lambda := Real.log (eta_max / eta_min) / ((iter_max : ℝ) - 1)
  (List.range iter_max).map (fun (t : ℕ) =>
    eta_max * Real.exp (-lambda * ((|(t : ℤ) - (iter_with_max_learning_rate : ℤ)| : ℤ) : ℝ)))

/-- Entry `t` of the schedule (0 out of range). -/
noncomputable def scheduleD (w_min w_max eps : ℝ) (T p t : ℕ) : ℝ :=
  (path_linear_sgd_schedule w_min w_max T p eps).getD t 0

lemma schedule_getD (w_min w_max eps : ℝ) (T p t : ℕ) (ht : t < T) :
    (path_linear_sgd_schedule w_min w_max T p eps).getD t 0
      = 1 / w_min * Real.exp (-(Real.log (1 / w_min / (eps / w_max)) / ((T : ℝ) - 1))
          * |(t : ℝ) - (p : ℝ)|) := by
  simp only [path_linear_sgd_schedule]
  rw [List.getD_eq_getElem?_getD, List.getElem?_map, List.getElem?_range ht]
  simp only [Option.map_some', Option.getD_some]
  congr 1
  congr 1
  push_cast
  ring

/-- The conjunction claimed of the schedule: length `T`, the closed-form
entries, positivity, maximum at the peak index, both endpoints at least
`eps/w_max`, and monotone decay when the peak is 0. -/
def C3Holds (w_min w_max eps : ℝ) (T p : ℕ) : Prop :=
  (path_linear_sgd_schedule w_min w_max T p eps).length = T
  ∧ (∀ t, t < T → scheduleD w_min w_max eps T p t
      = 1 / w_min * Real.exp (-(Real.log (1 / w_min / (eps / w_max)) / ((T : ℝ) - 1))
          * |(t : ℝ) - (p : ℝ)|))
  ∧ (∀ t, t < T → 0 < scheduleD w_min w_max eps T p t)
  ∧ (∀ t, t < T → scheduleD w_min w_max eps T p t ≤ scheduleD w_min w_max eps T p p)
  ∧ eps / w_max ≤ scheduleD w_min w_max eps T p 0
  ∧ eps / w_max ≤ scheduleD w_min w_max eps T p (T - 1)
  ∧ (p = 0 → ∀ s t, s ≤ t → t < T →
      scheduleD w_min w_max eps T p t ≤ scheduleD w_min w_max eps T p s)

/-- C3 counterexample: with `w_min = 1`, `w_max = 1`, `eps = e`, `T = 2`,
`p = 0` — all claimed preconditions hold — the schedule is `[1, e]`:
`eta[0] = 1 < e = eps/w_max`, so the claimed conjunction fails (the decay
rate `lambda` is negative because `eps/w_max > 1/w_min`). -/
theorem C3_cex :
    (0 : ℝ) < 1 ∧ (1 : ℝ) = 1 ∧ (0 : ℝ) < Real.exp 1 ∧ (1 : ℕ) ≤ 2 ∧ (0 : ℕ) < 2
    ∧ ¬ C3Holds 1 1 (Real.exp 1) 2 0 := by
  refine ⟨by norm_num, rfl, Real.exp_pos 1, by norm_num, by norm_num, ?_⟩
  intro h
  simp only [C3Holds] at h
  obtain ⟨-, -, -, -, h5, -, -⟩ := h
  rw [div_one] at h5
  have h0 : scheduleD 1 1 (Real.exp 1) 2 0 0 = 1 := by
    rw [scheduleD, schedule_getD 1 1 (Real.exp 1) 2 0 0 (by norm_num)]
    simp
  rw [h0] at h5
  have := Real.exp_one_gt_d9
  linarith

/-- C3 (amended): under the additional hypotheses `eps/w_max ≤ 1/w_min`
(i.e. `eta_min ≤ eta_max`, without which the tent is inverted) and
`2 ≤ T` (at `T = 1` the source divides by zero and the single entry is
NaN), the schedule has length `T`, follows the closed form
`eta[t] = (1/w_min) * exp(-lambda*|t-p|)`, is strictly positive, attains
its maximum at `t = p`, has both endpoints at least `eps/w_max`, and is
monotone non-increasing when `p = 0`. -/
theorem C3_schedule_shape (w_min w_max eps : ℝ) (T p : ℕ)
    (hwmin : 0 < w_min) (hwmax : w_max = 1) (heps : 0 < eps) (hT : 2 ≤ T)
    (hp : p < T) (hmono : eps / w_max ≤ 1 / w_min) :
    C3Holds w_min w_max eps T p := by
  subst hwmax
  rw [div_one] at hmono
  have hT1 : 1 ≤ T := by omega
  have hT0 : 0 < T := by omega
  have hetahi : (0 : ℝ) < 1 / w_min := by positivity
  have hratpos : (0 : ℝ) < 1 / w_min / (eps / 1) := by rw [div_one]; positivity
  have hlog : 0 ≤ Real.log (1 / w_min / (eps / 1)) := by
    rw [div_one]
    exact Real.log_nonneg ((one_le_div heps).mpr hmono)
  have hD : (0 : ℝ) ≤ (T : ℝ) - 1 := by
    have : (1 : ℝ) ≤ (T : ℝ) := by exact_mod_cast hT1
    linarith
  have hpT : (p : ℝ) ≤ (T : ℝ) - 1 := by
    have h1 : (p : ℝ) + 1 ≤ (T : ℝ) := by exact_mod_cast Nat.succ_le_of_lt hp
    linarith
  simp only [C3Holds, scheduleD]
  set lam := Real.log (1 / w_min / (eps / 1)) / ((T : ℝ) - 1) with hlamdef
  have hlam : 0 ≤ lam := div_nonneg hlog hD
  have key : ∀ x : ℝ, 0 ≤ x → x ≤ (T : ℝ) - 1 →
      lam * x ≤ Real.log (1 / w_min / (eps / 1)) := by
    intro x hx0 hx1
    by_cases hD0 : (T : ℝ) - 1 = 0
    · have hx : x = 0 := le_antisymm (hD0 ▸ hx1) hx0
      rw [hx, mul_zero]; exact hlog
    · calc lam * x ≤ lam * ((T : ℝ) - 1) := mul_le_mul_of_nonneg_left hx1 hlam
        _ = Real.log (1 / w_min / (eps / 1)) := by
            rw [hlamdef, div_mul_cancel₀ _ hD0]
  have hlower : ∀ y : ℝ, 0 ≤ y → y ≤ (T : ℝ) - 1 →
      eps / 1 ≤ 1 / w_min * Real.exp (-lam * y) := by
    intro y hy0 hy1
    have h1 : Real.exp (-(Real.log (1 / w_min / (eps / 1)))) ≤ Real.exp (-lam * y) := by
      apply Real.exp_le_exp.mpr
      have := key y hy0 hy1
      nlinarith
    have h3 : (1 / w_min) * ((eps / 1) / (1 / w_min)) = eps / 1 := by
      rw [mul_comm, div_mul_cancel₀ _ (ne_of_gt hetahi)]
    calc eps / 1 = (1 / w_min) * ((eps / 1) / (1 / w_min)) := h3.symm
      _ = (1 / w_min) * Real.exp (-(Real.log (1 / w_min / (eps / 1)))) := by
          rw [Real.exp_neg, Real.exp_log hratpos, inv_div]
      _ ≤ (1 / w_min) * Real.exp (-lam * y) :=
          mul_le_mul_of_nonneg_left h1 (le_of_lt hetahi)
  refine ⟨?_, ?_, ?_, ?_, ?_, ?_, ?_⟩
  · simp [path_linear_sgd_schedule]
  · intro t ht
    exact schedule_getD w_min 1 eps T p t ht
  · intro t ht
    rw [schedule_getD w_min 1 eps T p t ht]
    positivity
  · intro t ht
    rw [schedule_getD w_min 1 eps T p t ht, schedule_getD w_min 1 eps T p p hp]
    rw [sub_self, abs_zero, mul_zero, Real.exp_zero, mul_one]
    have hle : Real.exp (-lam * |(t : ℝ) - (p : ℝ)|) ≤ 1 := by
      rw [show (1 : ℝ) = Real.exp 0 from Real.exp_zero.symm]
      apply Real.exp_le_exp.mpr
      have h0 : 0 ≤ lam * |(t : ℝ) - (p : ℝ)| := mul_nonneg hlam (abs_nonneg _)
      nlinarith
    exact mul_le_of_le_one_right (le_of_lt hetahi) hle
  · rw [schedule_getD w_min 1 eps T p 0 hT0]
    have habs : |((0 : ℕ) : ℝ) - (p : ℝ)| = (p : ℝ)  := by
      rw [Nat.cast_zero, zero_sub, abs_neg, abs_of_nonneg (Nat.cast_nonneg p)]
    rw [habs]
    exact hlower (p : ℝ) (Nat.cast_nonneg p) hpT
  · rw [schedule_getD w_min 1 eps T p (T - 1) (Nat.sub_lt hT0 one_pos)]
    have hcast : (((T - 1 : ℕ)) : ℝ) = (T : ℝ) - 1 := by
      rw [Nat.cast_sub hT1, Nat.cast_one]
    rw [hcast]
    have habs : |(T : ℝ) - 1 - (p : ℝ)| = (T : ℝ) - 1 - (p : ℝ) :=
      abs_of_nonneg (by linarith)
    rw [habs]
    exact hlower ((T : ℝ) - 1 - (p : ℝ)) (by linarith)
      (by have : (0 : ℝ) ≤ (p : ℝ) := Nat.cast_nonneg p; linarith)
  · intro hp0 s t hst htT
    subst hp0
    rw [schedule_getD w_min 1 eps T 0 t htT,
      schedule_getD w_min 1 eps T 0 s (lt_of_le_of_lt hst htT)]
    have habs : ∀ u : ℕ, |(u : ℝ) - ((0 : ℕ) : ℝ)| = (u : ℝ) := by
      intro u
      rw [Nat.cast_zero, sub_zero, abs_of_nonneg (Nat.cast_nonneg u)]
    rw [habs t, habs s]
    apply mul_le_mul_of_nonneg_left _ (le_of_lt hetahi)
    apply Real.exp_le_exp.mpr
    have hcast : (s : ℝ) ≤ (t : ℝ) := by exact_mod_cast hst
    nlinarith [mul_le_mul_of_nonneg_left hcast hlam]

/-- C3 witness: the amended schedule-shape theorem applied at concrete
hyperparameters satisfying all its hypotheses. -/
theorem C3_schedule_shape_witness :
    (0 : ℝ) < 1 ∧ (1 : ℝ) = 1 ∧ (0 : ℝ) < 1 ∧ (2 : ℕ) ≤ 2 ∧ (0 : ℕ) < 2
    ∧ (1 : ℝ) / 1 ≤ 1 / 1 ∧ C3Holds 1 1 1 2 0 :=
  ⟨by norm_num, rfl, by norm_num, by norm_num, by norm_num, le_refl _,
    C3_schedule_shape 1 1 1 2 0 (by norm_num) rfl (by norm_num) (by norm_num)
      (by norm_num) (le_refl _)⟩

/-- The `handle_layout_t` triples sorted by the order finalizer. -/
structure handle_layout_t where
  weak_component : ℕ
  pos : ℚ
  handle : Handle
deriving DecidableEq

/-- The comparator passed to `std::sort` in `path_linear_sgd_order`
(lines 1069-1077), with the C++ `&&`/`||` precedence made explicit:
`a.weak_component < b.weak_component || ((a.weak_component ==
b.weak_component && a.pos < b.pos) || (a.pos == b.pos &&
as_integer(a.handle) < as_integer(b.handle)))`. -/
def layoutLt (a b : handle_layout_t) : Bool :=
  decide (a.weak_component < b.weak_component)
  || ((decide (a.weak_component = b.weak_component) && decide (a.pos < b.pos))
      || (decide (a.pos = b.pos) && decide (a.handle.as_int < b.handle.as_int)))

/-- Lexicographic order on `(component rank, position, handle integer)`,
the order the claim says the comparator computes. -/
def lexLt (a b : handle_layout_t) : Bool :=
  decide (a.weak_component < b.weak_component)
  || (decide (a.weak_component = b.weak_component)
      && (decide (a.pos < b.pos)
          || (decide (a.pos = b.pos) && decide (a.handle.as_int < b.handle.as_int))))

/-- Default `operator<` on `std::pair<double, uint64_t>` used to sort
`weak_component_order`. -/
def pairLt (a b : ℚ × ℕ) : Bool :=
  decide (a.1 < b.1) || (decide (a.1 = b.1) && decide (a.2 < b.2))

/-- Insertion into a sorted list, used to model `std::sort` (the
comparators above are used on elements that are pairwise distinct in some
component, so any comparison sort yields the same list). -/
def insertBy (r : α → α → Bool) (x : α) : List α → List α
  | [] => [x]
  | y :: ys => if r x y then x :: y :: ys else y :: insertBy r x ys

/-- Comparison sort used to model `std::sort`. -/
def sortBy (r : α → α → Bool) : List α → List α
  | [] => []
  | x :: xs => insertBy r x (sortBy r xs)

set_option linter.unusedVariables false in
/-- Tail of `path_linear_sgd_order` (lines 988-1083, snapshot branch
omitted): rank the weakly-connected components by mean node id, build the
per-node rank map, then — as the source does — `clear()` the map, build
the `(component, pos, handle)` triples reading the cleared map (an
out-of-bounds vector read, modelled as an `Option` lookup), sort them with
`layoutLt` and emit the handles.  `comps` is the output of the external
`weakly_connected_components`, a list of lists of node ids. -/
def path_linear_sgd_order_tail (handles : List Handle) (comps : List (List ℕ))
    (layout : List ℚ) : Option (List Handle) :=
  let weak_component_order :=
    sortBy pairLt ((comps.enum).map (fun ic => (((ic.2.sum : ℚ) / (ic.2.length : ℚ)), ic.1)))
  let weak_component_id :=
    (weak_component_order.enum).foldl (fun a kp => a.set kp.2.2 kp.1)
      (List.replicate comps.length 0)
  let weak_components_map :=
    (comps.enum).foldl
      (fun m ic => ic.2.foldl (fun m node_id => m.set (node_id - 1) (weak_component_id.getD ic.1 0)) m)
      (List.replicate handles.length 0)
  let cleared : List ℕ := []
  match (handles.zip layout).mapM
      (fun hx => (cleared.get? hx.1.number).map
        (fun c => handle_layout_t.mk c hx.2 hx.1)) with
  | none => none
  | some handle_layout =>
      some ((sortBy layoutLt handle_layout).map (fun t => t.handle))

/-- C1: the order finalizer clears `weak_components_map` (line 1023)
before the `for_each_handle` loop reads it, so on any graph with at least
one node every component-rank lookup is out of bounds and the finalizer
cannot produce the claimed component-refined order; here it fails on the
two-component graph with nodes {1} and {2}. -/
theorem C1_order_map_cleared :
    path_linear_sgd_order_tail [⟨0, false⟩, ⟨1, false⟩] [[1], [2]] [5, 1] = none := by
  rfl

/-- C10 counterexample: triples `a = (1, 0, handle 0)` and
`b = (0, 0, handle 1)` have `a.weak_component > b.weak_component`, yet the
comparator reports both `a` before `b` and `b` before `a` — it orders `a`
first although its component rank is larger, and it is not asymmetric, so
it is not a strict weak ordering and differs from lexicographic order. -/
theorem C10_cex :
    layoutLt ⟨1, 0, ⟨0, false⟩⟩ ⟨0, 0, ⟨1, false⟩⟩ = true
    ∧ layoutLt ⟨0, 0, ⟨1, false⟩⟩ ⟨1, 0, ⟨0, false⟩⟩ = true
    ∧ (⟨1, 0, ⟨0, false⟩⟩ : handle_layout_t).weak_component
        > (⟨0, 0, ⟨1, false⟩⟩ : handle_layout_t).weak_component := by
  refine ⟨?_, ?_, ?_⟩ <;> decide

/-- C10 (amended): the comparator agrees with lexicographic order on
`(component rank, position, handle integer)` for every pair whose
positions differ or whose component ranks are equal; but when
`a.pos = b.pos` and `a.handle < b.handle` it reports `a` before `b`
regardless of the component ranks (the final clause of the C++ expression
is not guarded by component equality), so it is not a strict weak
ordering. -/
theorem C10_comparator_lex (a b : handle_layout_t)
    (h : a.pos ≠ b.pos ∨ a.weak_component = b.weak_component) :
    layoutLt a b = lexLt a b := by
  rcases h with h | h
  · simp [layoutLt, lexLt, h]
  · simp [layoutLt, lexLt, h]

/-- C10 witness: on a pair with equal component ranks the comparator and
the lexicographic order agree. -/
theorem C10_comparator_lex_witness :
    layoutLt ⟨0, 0, ⟨0, false⟩⟩ ⟨0, 1, ⟨1, false⟩⟩
      = lexLt ⟨0, 0, ⟨0, false⟩⟩ ⟨0, 1, ⟨1, false⟩⟩ :=
  C10_comparator_lex ⟨0, 0, ⟨0, false⟩⟩ ⟨0, 1, ⟨1, false⟩⟩ (Or.inr rfl)
